import Mathlib

/-!
Verification development for the remote PTY multiplexer
(`electron/remote/server.ts`, `electron/remote/protocol.ts`,
`electron/ipc/pty.ts`, `electron/remote/ring-buffer.ts`).

Shallow embedding conventions:
* byte buffers (`Buffer`) are `List Nat`;
* JS strings are Lean `String`s (`.data` for their character lists);
* JS `Map` objects are association lists in insertion order;
* environment objects (unique keys) are functions `String → Option String`;
* fallible operations return `Option` / an explicit error component.
-/

/- ===================== Ring buffer (ring-buffer.ts) ===================== -/

/-- State of the fixed-capacity ring buffer from `ring-buffer.ts`:
backing buffer `buf` (allocated at `capacity` bytes), write cursor `pos`,
fullness flag `full`. -/
structure RingBuffer where
  capacity : Nat
  buf : List Nat
  pos : Nat
  full : Bool
deriving Repr, DecidableEq

/-- `new RingBuffer(capacity)`: zero-filled backing buffer (`Buffer.alloc`). -/
def RingBuffer.new (capacity : Nat) : RingBuffer :=
  { capacity := capacity, buf := List.replicate capacity 0, pos := 0, full := false }

/-- Model of `src.copy(dst, target)` for slices that fit inside `dst`
(`target + src.length ≤ dst.length`, as in every call site of `write`):
overwrite `dst` starting at index `target` with `src`. -/
def writeAt (dst : List Nat) (target : Nat) (src : List Nat) : List Nat :=
  dst.take target ++ src ++ dst.drop (target + src.length)

/-- `RingBuffer.write(data)`, translated branch by branch.  The source binds
`spaceAtEnd = capacity - pos`; here it is spelled inline.  The cursor update
`pos = (pos + data.length) % capacity` and the fullness update
`if (!full && pos < data.length) full = true` are shared by both small-data
branches and are spelled out in each. -/
def RingBuffer.write (s : RingBuffer) (data : List Nat) : RingBuffer :=
  if s.capacity ≤ data.length then
    -- data.length >= capacity: keep only the tail of `data`
    { s with buf := writeAt s.buf 0 (data.drop (data.length - s.capacity)),
             pos := 0, full := true }
  else if data.length ≤ s.capacity - s.pos then
    { s with buf := writeAt s.buf s.pos data,
             pos := (s.pos + data.length) % s.capacity,
             full := s.full || decide ((s.pos + data.length) % s.capacity < data.length) }
  else
    { s with buf := writeAt (writeAt s.buf s.pos (data.take (s.capacity - s.pos))) 0
                       (data.drop (s.capacity - s.pos)),
             pos := (s.pos + data.length) % s.capacity,
             full := s.full || decide ((s.pos + data.length) % s.capacity < data.length) }

/-- `RingBuffer.read()`: all stored bytes in chronological order. -/
def RingBuffer.read (s : RingBuffer) : List Nat :=
  if s.full then s.buf.drop s.pos ++ s.buf.take s.pos else s.buf.take s.pos

/-- `RingBuffer.length` getter: `full ? capacity : pos`. -/
def RingBuffer.length (s : RingBuffer) : Nat :=
  if s.full then s.capacity else s.pos

/-- The final `min(l.length, n)` elements of `l` (the `n`-byte tail). -/
def lastN (n : Nat) (l : List Nat) : List Nat :=
  l.drop (l.length - n)

/- ============ Base64 (Buffer.prototype.toString with base64) ============ -/

/-- The standard base64 alphabet used by `Buffer.toString("base64")`. -/
def b64Alphabet : List Char :=
  "ABCDEFGHIJKLMNOPQRSTUVWXYZabcdefghijklmnopqrstuvwxyz0123456789+/".data

def b64Char (n : Nat) : Char := b64Alphabet.getD n 'A'

/-- Base64 character stream of a byte list: three input bytes per four
output characters, padded with `=` as `Buffer.toString("base64")` does. -/
def base64Chars : List Nat → List Char
  | [] => []
  | [a] => [b64Char (a / 4), b64Char (a % 4 * 16), '=', '=']
  | [a, b] => [b64Char (a / 4), b64Char (a % 4 * 16 + b / 16),
               b64Char (b % 16 * 4), '=']
  | a :: b :: c :: rest =>
      b64Char (a / 4) :: b64Char (a % 4 * 16 + b / 16) ::
      b64Char (b % 16 * 4 + c / 64) :: b64Char (c % 64) :: base64Chars rest

def base64Encode (bytes : List Nat) : String := ⟨base64Chars bytes⟩

/- ============ Wire protocol codec (protocol.ts) ============ -/

/-- Agent status strings `"running" | "exited"`. -/
inductive AStatus where
  | running
  | exited
deriving Repr, DecidableEq

def AStatus.isRunning : AStatus → Bool
  | .running => true
  | .exited => false

/-- `RemoteAgent` record from `protocol.ts`. -/
structure RemoteAgent where
  agentId : String
  taskId : String
  taskName : String
  status : AStatus
  exitCode : Option Int
  lastLine : String
deriving Repr, DecidableEq

/-- Parsed JSON values (`JSON.parse` output).  Numbers are modeled as exact
rationals; JSON numerals relevant to validation (integers in `[1, 500]`) are
exactly representable in a JS double, so nothing is lost for this codec. -/
inductive JVal where
  | jnull
  | jbool (b : Bool)
  | jnum (q : Rat)
  | jstr (s : String)
  | jarr (elems : List JVal)
  | jobj (fields : List (String × JVal))
deriving Repr

/-- JS property access `msg.key` on a parsed JSON value: `undefined`
(`none`) unless the value is an object with the key; for duplicate keys
`JSON.parse` keeps the last one. -/
def jGet : JVal → String → Option JVal
  | .jobj fields, key =>
      fields.foldl (fun acc kv => if kv.1 = key then some kv.2 else acc) none
  | _, _ => none

/-- Validated client frames (`ClientMessage` in `protocol.ts`).  `cols` and
`rows` carry the parsed numeric value (integral after validation). -/
inductive ClientMessage where
  | input (agentId : String) (data : String)
  | resize (agentId : String) (cols rows : Rat)
  | kill (agentId : String)
  | subscribe (agentId : String)
  | unsubscribe (agentId : String)
deriving Repr, DecidableEq

/-- `parseClientMessage(raw)`.  The argument is the result of `JSON.parse`
(`none` when parsing threw, making the function return null through the
`catch`).  String lengths count code points where JS counts UTF-16 units;
the two coincide on well-formed protocol traffic. -/
def parseClientMessage : Option JVal → Option ClientMessage
  | none => none
  | some msg =>
    match jGet msg "type" with
    | some (.jstr ty) =>
      match jGet msg "agentId" with
      | some (.jstr agentId) =>
        if 100 < agentId.length then none
        else if ty = "input" then
          match jGet msg "data" with
          | some (.jstr data) =>
              if 4096 < data.length then none
              else some (.input agentId data)
          | _ => none
        else if ty = "resize" then
          match jGet msg "cols", jGet msg "rows" with
          | some (.jnum cols), some (.jnum rows) =>
              if ¬ cols.den = 1 ∨ ¬ rows.den = 1 then none
              else if cols < 1 ∨ 500 < cols ∨ rows < 1 ∨ 500 < rows then none
              else some (.resize agentId cols rows)
          | _, _ => none
        else if ty = "kill" then some (.kill agentId)
        else if ty = "subscribe" then some (.subscribe agentId)
        else if ty = "unsubscribe" then some (.unsubscribe agentId)
        else none
      | _ => none
    | _ => none

/-- Follows the words of claim C7 (spec §4.3 validation table): a client
frame parses iff the input is JSON carrying a string `type` equal to one of
the five frame names and a string `agentId` of length at most 100, and
additionally for `input` a string `data` of length at most 4096, and for
`resize` integer `cols` and `rows` each within `[1, 500]`. -/
def clientFrameValidSpec : Option JVal → Bool
  | none => false
  | some msg =>
    match jGet msg "type", jGet msg "agentId" with
    | some (.jstr ty), some (.jstr agentId) =>
      decide (agentId.length ≤ 100) &&
      (if ty = "input" then
         match jGet msg "data" with
         | some (.jstr data) => decide (data.length ≤ 4096)
         | _ => false
       else if ty = "resize" then
         match jGet msg "cols", jGet msg "rows" with
         | some (.jnum cols), some (.jnum rows) =>
             decide (cols.den = 1) && decide (rows.den = 1) &&
             decide (1 ≤ cols) && decide (cols ≤ 500) &&
             decide (1 ≤ rows) && decide (rows ≤ 500)
         | _, _ => false
       else decide (ty = "kill" ∨ ty = "subscribe" ∨ ty = "unsubscribe"))
    | _, _ => false

/- ============ PTY lifecycle event bus (pty.ts) ============ -/

/-- `onPtyEvent` registration into one topic of `eventListeners`: JS `Set`
iterates in insertion order and deduplicates. Listeners are identified by
numbers (closure identity). -/
def addListener (listeners : List Nat) (l : Nat) : List Nat :=
  if listeners.contains l then listeners else listeners ++ [l]

/-- `emitPtyEvent` for one topic:
`eventListeners.get(event)?.forEach((fn) => fn(agentId, data))`.
`Set.prototype.forEach` invokes the callbacks in insertion order and does
not guard against exceptions: a throwing listener aborts the iteration and
its exception propagates to the emitter.  `throws l` models listener `l`
throwing.  Result: the invoked listeners in order, and the listener whose
exception propagated out of the emit, if any. -/
def emitPtyEvent (listeners : List Nat) (throws : Nat → Bool) :
    List Nat × Option Nat :=
  match listeners with
  | [] => ([], none)
  | l :: rest =>
    if throws l then ([l], some l)
    else
      let r := emitPtyEvent rest throws
      (l :: r.1, r.2)

/- ============ PTY session pool (pty.ts) ============ -/

/-- One entry of the `sessions` map.  `cols`, `rows`, `cwd` and `env` model
the state of the spawned `node-pty` process (`proc`); `subscribers` live on
the client side of the trace model below. -/
structure PtySession where
  channelId : String
  taskId : String
  agentId : String
  cols : Nat
  rows : Nat
  cwd : String
  env : String → Option String
  scrollback : RingBuffer

/-- `Map.prototype.get`: first (and only) binding of the key. -/
def mapGet {V : Type} : List (String × V) → String → Option V
  | [], _ => none
  | kv :: rest, k => if kv.1 = k then some kv.2 else mapGet rest k

/-- `Map.prototype.set`: replace in place if the key exists, else append. -/
def mapSet {V : Type} : List (String × V) → String → V → List (String × V)
  | [], k, v => [(k, v)]
  | kv :: rest, k, v =>
      if kv.1 = k then (k, v) :: rest else kv :: mapSet rest k v

/-- `getActiveAgentIds()`: `Array.from(sessions.keys())`. -/
def getActiveAgentIds (sessions : List (String × PtySession)) : List String :=
  sessions.map Prod.fst

/-- `getAgentMeta(agentId)`: `(taskId, agentId)` or null. -/
def getAgentMeta (sessions : List (String × PtySession)) (agentId : String) :
    Option (String × String) :=
  (mapGet sessions agentId).map (fun s => (s.taskId, s.agentId))

/-- `getAgentScrollback(agentId)`: base64 snapshot or null. -/
def getAgentScrollback (sessions : List (String × PtySession))
    (agentId : String) : Option String :=
  (mapGet sessions agentId).map (fun s => base64Encode s.scrollback.read)

/-- `getAgentCols(agentId)`: the session PTY column count, 80 by default. -/
def getAgentCols (sessions : List (String × PtySession)) (agentId : String) : Nat :=
  match mapGet sessions agentId with
  | some s => s.cols
  | none => 80

/-- `subscribeToAgent` succeeds iff the session exists (the callback itself
is tracked on the client side in the trace model). -/
def subscribeToAgentOk (sessions : List (String × PtySession))
    (agentId : String) : Bool :=
  (mapGet sessions agentId).isSome

/-- Error kinds raised by the pool. -/
inductive SpawnErr where
  | errInvalidCommand
deriving Repr, DecidableEq

/-- One `emitPtyEvent(topic, agentId)` call. -/
structure PtyEventEmit where
  topic : String
  agentId : String
deriving Repr, DecidableEq

/-- Arguments of `spawnAgent` (the desktop sink handle is `channelId`). -/
structure SpawnArgs where
  taskId : String
  agentId : String
  command : String
  args : List String
  cwd : String
  env : String → Option String
  cols : Nat
  rows : Nat
  channelId : String

/-- JS `a || b` on strings: the empty string is falsy. -/
def jsOrStr (a b : String) : String := if a = "" then b else a

/-- JS `a || b` where `a` may be undefined. -/
def jsOrOptStr (a : Option String) (b : String) : String :=
  match a with
  | some s => jsOrStr s b
  | none => b

/-- Character codes rejected by the spawn command validation regex
`[;&|` + "backtick" + `$(){}` + newline + `]`:
`; & | backtick $ ( ) { } \n`. -/
def commandDisallowedCodes : List Nat := [59, 38, 124, 96, 36, 40, 41, 123, 125, 10]

/-- `/[;&|$(){}\n]/.test(command)` together with the backtick. -/
def hasDisallowedChar (s : String) : Bool :=
  s.data.any (fun c => commandDisallowedCodes.contains c.toNat)

/-- `ENV_BLOCK_LIST` from `spawnAgent`. -/
def ENV_BLOCK_LIST : List String :=
  ["PATH", "HOME", "USER", "SHELL", "LD_PRELOAD", "LD_LIBRARY_PATH",
   "DYLD_INSERT_LIBRARIES", "NODE_OPTIONS", "ELECTRON_RUN_AS_NODE"]

/-- Env vars deleted unconditionally to allow nested agent sessions. -/
def NESTED_AGENT_VARS : List String :=
  ["CLAUDECODE", "CLAUDE_CODE_SESSION", "CLAUDE_CODE_ENTRYPOINT"]

/-- `safeEnvOverrides`: caller overrides filtered through the deny list. -/
def safeEnvOverrides (env : String → Option String) : String → Option String :=
  fun k => if ENV_BLOCK_LIST.contains k then none else env k

/-- `spawnEnv`: process environment (undefined entries dropped), the fixed
`TERM`/`COLORTERM` overrides, then the filtered caller overrides (spread
last, so they win), and finally the nested-agent variables deleted. -/
def buildSpawnEnv (procEnv : String → Option String)
    (overrides : String → Option String) : String → Option String :=
  fun k =>
    if NESTED_AGENT_VARS.contains k then none
    else
      match safeEnvOverrides overrides k with
      | some v => some v
      | none =>
        if k = "TERM" then some "xterm-256color"
        else if k = "COLORTERM" then some "truecolor"
        else procEnv k

/-- `const command = args.command || process.env.SHELL || "/bin/sh"`. -/
def effectiveCommand (procEnv : String → Option String) (args : SpawnArgs) : String :=
  jsOrStr args.command (jsOrOptStr (procEnv "SHELL") "/bin/sh")

/-- `const cwd = args.cwd || process.env.HOME || "/"`. -/
def effectiveCwd (procEnv : String → Option String) (args : SpawnArgs) : String :=
  jsOrStr args.cwd (jsOrOptStr (procEnv "HOME") "/")

/-- The session record built by `spawnAgent` (pty spawned with the
constructed environment and a fresh 64 KiB scrollback ring buffer). -/
def spawnSession (procEnv : String → Option String) (args : SpawnArgs) : PtySession :=
  { channelId := args.channelId, taskId := args.taskId,
    agentId := args.agentId, cols := args.cols, rows := args.rows,
    cwd := effectiveCwd procEnv args, env := buildSpawnEnv procEnv args.env,
    scrollback := RingBuffer.new (64 * 1024) }

/-- `spawnAgent`: command defaulting and validation, environment
construction, session insertion, `spawn` event emission.  The `throw` is
modeled by returning the unchanged pool, no emitted events and the error
(nothing is mutated before the throw in the source). -/
def spawnAgent (sessions : List (String × PtySession))
    (procEnv : String → Option String) (args : SpawnArgs) :
    List (String × PtySession) × List PtyEventEmit × Option SpawnErr :=
  if hasDisallowedChar (effectiveCommand procEnv args) then
    (sessions, [], some SpawnErr.errInvalidCommand)
  else
    (mapSet sessions args.agentId (spawnSession procEnv args),
     [{ topic := "spawn", agentId := args.agentId }], none)

/- ============ RemoteAgent projection (server.ts, buildAgentList) ============ -/

/-- The `getAgentStatus` callback result. -/
structure AgentStatusInfo where
  status : AStatus
  exitCode : Option Int
  lastLine : String

/-- The `RemoteAgent` record assembled inside the `buildAgentList` loop. -/
def mkRemoteAgent (getTaskName : String → String)
    (getAgentStatus : String → AgentStatusInfo)
    (agentId taskId : String) : RemoteAgent :=
  let info := getAgentStatus agentId
  { agentId := agentId, taskId := taskId, taskName := getTaskName taskId,
    status := info.status, exitCode := info.exitCode, lastLine := info.lastLine }

/-- The loop body of `buildAgentList`: a `byTask` map update for one agent
id (skip when the meta lookup fails; insert when the task is new; replace
only when the new agent is running and the stored one is not). -/
def byTaskStep (sessions : List (String × PtySession))
    (getTaskName : String → String) (getAgentStatus : String → AgentStatusInfo)
    (byTask : List (String × RemoteAgent)) (agentId : String) :
    List (String × RemoteAgent) :=
  match getAgentMeta sessions agentId with
  | none => byTask
  | some meta =>
    let agent := mkRemoteAgent getTaskName getAgentStatus agentId meta.1
    match mapGet byTask meta.1 with
    | none => mapSet byTask meta.1 agent
    | some existing =>
      if agent.status = AStatus.running ∧ existing.status ≠ AStatus.running
      then mapSet byTask meta.1 agent
      else byTask

/-- `buildAgentList`: iterate active agent ids, dedup into the `byTask`
map, return the map values. -/
def buildAgentList (sessions : List (String × PtySession))
    (getTaskName : String → String)
    (getAgentStatus : String → AgentStatusInfo) : List RemoteAgent :=
  ((getActiveAgentIds sessions).foldl
    (byTaskStep sessions getTaskName getAgentStatus) []).map Prod.snd

/-- The `RemoteAgent` record one loop iteration produces, or `none` when
the meta lookup fails. -/
def projAgent (sessions : List (String × PtySession))
    (getTaskName : String → String) (getAgentStatus : String → AgentStatusInfo)
    (agentId : String) : Option RemoteAgent :=
  (getAgentMeta sessions agentId).map (fun meta =>
    mkRemoteAgent getTaskName getAgentStatus agentId meta.1)

/-- Specification view: the per-agent records in iteration order, before
deduplication. -/
def projectedAgents (sessions : List (String × PtySession))
    (getTaskName : String → String)
    (getAgentStatus : String → AgentStatusInfo) : List RemoteAgent :=
  (getActiveAgentIds sessions).filterMap
    (projAgent sessions getTaskName getAgentStatus)

/-- Specification view: the first running candidate, else the first
candidate. -/
def chooseEntry (cands : List RemoteAgent) : Option RemoteAgent :=
  match cands.find? (fun a => a.status.isRunning) with
  | some a => some a
  | none => cands.head?

/-- How one stored entry evolves over a list of later candidates for its
task: a stored running entry never changes; otherwise the first running
candidate replaces it. -/
def mergeChoose : Option RemoteAgent → List RemoteAgent → Option RemoteAgent
  | some cur, cands =>
    if cur.status.isRunning then some cur
    else
      match cands.find? (fun a => a.status.isRunning) with
      | some a => some a
      | none => some cur
  | none, cands => chooseEntry cands

/- ============ Authentication and HTTP API (server.ts) ============ -/

/-- JS `String.prototype.startsWith`. -/
def jsStartsWith (s pre : String) : Bool := s.data.take pre.data.length == pre.data

/-- JS `String.prototype.slice(n)` for nonnegative `n`. -/
def jsDropChars (s : String) (n : Nat) : String := ⟨s.data.drop n⟩

/-- `safeCompare(candidate)`: false for null/undefined/empty candidates
(JS falsiness of `""`); otherwise the byte-length guard followed by
`timingSafeEqual`, which on equal-length buffers of the UTF-8 encodings is
exactly string equality. -/
def safeCompare (token : String) : Option String → Bool
  | none => false
  | some c => if c = "" then false else c == token

/-- The parts of an incoming HTTP/upgrade request the server consults:
the `Authorization` header, the `token` query parameter of the parsed URL,
the pathname, and the method. -/
structure AuthRequest where
  authorization : Option String
  queryToken : Option String
  pathname : String
  method : String

/-- `checkAuth(req)`: `Bearer` header first, then the query parameter. -/
def checkAuth (token : String) (req : AuthRequest) : Bool :=
  (match req.authorization with
   | some auth =>
       jsStartsWith auth "Bearer " && safeCompare token (some (jsDropChars auth 7))
   | none => false)
  || safeCompare token req.queryToken

/-- An HTTP response of the `/api/` branch; the JSON body is modeled as the
value passed to `JSON.stringify`. -/
structure HttpResponse where
  status : Nat
  body : JVal

def AStatus.toJson : AStatus → JVal
  | .running => .jstr "running"
  | .exited => .jstr "exited"

def exitCodeToJson : Option Int → JVal
  | some n => .jnum (n : Rat)
  | none => .jnull

def RemoteAgent.toJson (a : RemoteAgent) : JVal :=
  .jobj [("agentId", .jstr a.agentId), ("taskId", .jstr a.taskId),
         ("taskName", .jstr a.taskName), ("status", a.status.toJson),
         ("exitCode", exitCodeToJson a.exitCode), ("lastLine", .jstr a.lastLine)]

/-- The route regex match for one nonempty path segment after
`/api/agents/`. -/
def apiAgentIdMatch (pathname : String) : Option String :=
  if jsStartsWith pathname "/api/agents/" then
    let rest := jsDropChars pathname 12
    if rest ≠ "" ∧ ¬ rest.data.contains '/' then some rest else none
  else none

/-- The `/api/` branch of the HTTP request handler in `startRemoteServer`.
Non-`/api/` paths go to static file serving (filesystem I/O, outside this
model): `none`. -/
def handleApiRequest (token : String) (sessions : List (String × PtySession))
    (getTaskName : String → String) (getAgentStatus : String → AgentStatusInfo)
    (req : AuthRequest) : Option HttpResponse :=
  if jsStartsWith req.pathname "/api/" then
    if ¬ checkAuth token req then
      some { status := 401, body := .jobj [("error", .jstr "unauthorized")] }
    else if req.pathname = "/api/agents" ∧ req.method = "GET" then
      some { status := 200,
             body := .jarr ((buildAgentList sessions getTaskName getAgentStatus).map
               RemoteAgent.toJson) }
    else
      match apiAgentIdMatch req.pathname with
      | some agentId =>
        if req.method = "GET" then
          match getAgentScrollback sessions agentId with
          | none =>
              some { status := 404, body := .jobj [("error", .jstr "agent not found")] }
          | some scrollback =>
              let info := match getAgentMeta sessions agentId with
                | some _ => some (getAgentStatus agentId)
                | none => none
              some { status := 200,
                     body := .jobj [("agentId", .jstr agentId),
                       ("scrollback", .jstr scrollback),
                       ("status", (match info with
                         | some i => i.status.toJson
                         | none => AStatus.exited.toJson)),
                       ("exitCode", (match info with
                         | some i => exitCodeToJson i.exitCode
                         | none => .jnull))] }
        else some { status := 404, body := .jobj [("error", .jstr "not found")] }
      | none => some { status := 404, body := .jobj [("error", .jstr "not found")] }
  else none

/- ============ WebSocket subscribe/output trace (server.ts + pty.ts) ============ -/

/-- Server frames sent to one client (`ServerMessage`). -/
inductive Frame where
  | agents (list : List RemoteAgent)
  | scrollback (agentId : String) (data : String) (cols : Nat)
  | output (agentId : String) (data : String)
  | status (agentId : String) (status : AStatus) (exitCode : Option Int)
deriving Repr, DecidableEq

/-- Events relevant to the subscribe/output path, from the view of one
connected client: its own `subscribe`/`unsubscribe` frames (already
parsed), and a session flush of a (nonempty) batched chunk. -/
inductive WsEvent where
  | subscribe (agentId : String)
  | unsubscribe (agentId : String)
  | flush (agentId : String) (chunk : List Nat)
deriving Repr, DecidableEq

/-- Server state projected onto one client: the session pool and the
client subscription map of `startRemoteServer` (`clientSubs`); the key set
suffices because the callback identity is per (client, agent). -/
structure TraceState where
  sessions : List (String × PtySession)
  subs : List String

/-- The flush effect on the session: append the batch to the scrollback. -/
def flushSession (s : PtySession) (chunk : List Nat) : PtySession :=
  { s with scrollback := s.scrollback.write chunk }

/-- One event step, returning the next state and the frames sent to the
client.  `subscribe` follows server.ts lines 272-290: skip when already
subscribed; send a `scrollback` frame only when the base64 snapshot is
truthy (non-null and nonempty); register the callback when
`subscribeToAgent` succeeds.  `flush` follows the pty.ts flush procedure
restricted to this client (socket modeled open): no-op on an empty batch,
otherwise write the scrollback and notify the subscriber. -/
def stepWs (st : TraceState) : WsEvent → TraceState × List Frame
  | .subscribe agentId =>
    if st.subs.contains agentId then (st, [])
    else
      match getAgentScrollback st.sessions agentId with
      | none => (st, [])
      | some scrollback =>
        ({ st with subs := st.subs ++ [agentId] },
         if scrollback = "" then []
         else [Frame.scrollback agentId scrollback (getAgentCols st.sessions agentId)])
  | .unsubscribe agentId =>
    ({ st with subs := st.subs.erase agentId }, [])
  | .flush agentId chunk =>
    match mapGet st.sessions agentId with
    | none => (st, [])
    | some s =>
      if chunk = [] then (st, [])
      else
        ({ st with sessions := mapSet st.sessions agentId (flushSession s chunk) },
         if st.subs.contains agentId then [Frame.output agentId (base64Encode chunk)]
         else [])

/-- All frames this client receives along a run of events. -/
def runWs (st : TraceState) : List WsEvent → List Frame
  | [] => []
  | e :: es =>
    let r := stepWs st e
    r.2 ++ runWs r.1 es

/-- The frames of the run concerning one agent. -/
def framesForAgent (agentId : String) (frames : List Frame) : List Frame :=
  frames.filter (fun f => match f with
    | .scrollback a _ _ => a = agentId
    | .output a _ => a = agentId
    | .status a _ _ => a = agentId
    | .agents _ => false)

/-- Is the frame an `output` frame for the given agent. -/
def Frame.isOutputFor (agentId : String) : Frame → Bool
  | .output a _ => a = agentId
  | _ => false

/- ============ Concrete fixtures for witnesses and counterexamples ============ -/

/-- A concrete pool session for a given agent and task id. -/
def demoSession (aid tid : String) (cols : Nat) (rb : RingBuffer) : PtySession :=
  { channelId := "ch", taskId := tid, agentId := aid, cols := cols, rows := 24,
    cwd := "/", env := fun _ => none, scrollback := rb }

/-- Two agents of the same task, used by the dedup counterexample. -/
def c3Pool : List (String × PtySession) :=
  [("a1", demoSession "a1" "T" 80 (RingBuffer.new 4)),
   ("a2", demoSession "a2" "T" 80 (RingBuffer.new 4))]

def allRunningStatus : String → AgentStatusInfo :=
  fun _ => { status := AStatus.running, exitCode := none, lastLine := "" }

def demoTaskName : String → String := fun _ => "task"

/-- Status callback: `a2` running, everything else exited. -/
def c8Status : String → AgentStatusInfo :=
  fun aid =>
    if aid = "a2" then { status := AStatus.running, exitCode := none, lastLine := "" }
    else { status := AStatus.exited, exitCode := some 0, lastLine := "" }

/-- Spawn arguments with a command containing a semicolon. -/
def badSpawnArgs : SpawnArgs :=
  { taskId := "t1", agentId := "a1", command := "a;b", args := [], cwd := "",
    env := fun _ => none, cols := 80, rows := 24, channelId := "ch" }

/-- Spawn arguments with an absolute-path command. -/
def goodSpawnArgs : SpawnArgs :=
  { taskId := "t1", agentId := "a1", command := "/bin/echo", args := ["hi"],
    cwd := "", env := fun _ => none, cols := 80, rows := 24, channelId := "ch" }

/-- A pool whose only agent has bytes in its scrollback. -/
def c4Pool : List (String × PtySession) :=
  [("A", demoSession "A" "T" 120 ((RingBuffer.new 4).write [104, 105]))]

/-- A pool whose only agent has an empty scrollback (fresh spawn). -/
def c4EmptyPool : List (String × PtySession) :=
  [("A", demoSession "A" "T" 120 (RingBuffer.new 8))]

/- ===================== Theorems ===================== -/

theorem lastN_of_length_le {n : Nat} {l : List Nat} (h : l.length ≤ n) :
    lastN n l = l := by
  simp [lastN, Nat.sub_eq_zero_of_le h]

theorem length_lastN (n : Nat) (l : List Nat) :
    (lastN n l).length = min n l.length := by
  simp [lastN]; omega

/-- Taking the `n`-tail twice across an append collapses. -/
theorem lastN_append_lastN (n : Nat) (h d : List Nat) :
    lastN n (lastN n h ++ d) = lastN n (h ++ d) := by
  simp only [lastN, List.length_append, List.length_drop,
    List.drop_append_eq_append_drop, List.drop_drop]
  congr 1
  · congr 1
    omega
  · congr 1
    omega

theorem length_writeAt {dst : List Nat} {target : Nat} {src : List Nat}
    (h : target + src.length ≤ dst.length) :
    (writeAt dst target src).length = dst.length := by
  simp [writeAt]; omega

theorem read_mk_full (cap : Nat) (b : List Nat) (p : Nat) :
    (RingBuffer.mk cap b p true).read = b.drop p ++ b.take p := by
  simp [RingBuffer.read]

theorem read_mk_notfull (cap : Nat) (b : List Nat) (p : Nat) :
    (RingBuffer.mk cap b p false).read = b.take p := by
  simp [RingBuffer.read]

/-- One write step preserves well-formedness and appends to the tail view:
after `write data`, `read` is the capacity-bounded tail of `read ++ data`. -/
theorem RingBuffer.write_step (s : RingBuffer) (d : List Nat)
    (hcap : 0 < s.capacity) (hbuf : s.buf.length = s.capacity)
    (hpos : s.pos < s.capacity) :
    (s.write d).capacity = s.capacity ∧
    (s.write d).buf.length = s.capacity ∧
    (s.write d).pos < s.capacity ∧
    (s.write d).read = lastN s.capacity (s.read ++ d) := by
  obtain ⟨cap, b, p, f⟩ := s
  dsimp only at hcap hbuf hpos ⊢
  by_cases hbig : cap ≤ d.length
  · -- data at least as long as the buffer: whole buffer replaced by the tail
    have hlen : (d.drop (d.length - cap)).length = cap := by
      rw [List.length_drop]; omega
    have hw : RingBuffer.write ⟨cap, b, p, f⟩ d
        = ⟨cap, writeAt b 0 (d.drop (d.length - cap)), 0, true⟩ := by
      unfold RingBuffer.write
      rw [if_pos hbig]
    have hwa : writeAt b 0 (d.drop (d.length - cap)) = d.drop (d.length - cap) := by
      unfold writeAt
      rw [List.take_zero, List.nil_append, Nat.zero_add, hlen,
        show b.drop cap = [] from List.drop_eq_nil_iff.mpr (by omega),
        List.append_nil]
    refine ⟨by rw [hw], ?_, by rw [hw]; exact hcap, ?_⟩
    · rw [hw]
      show (writeAt b 0 (d.drop (d.length - cap))).length = cap
      rw [hwa, hlen]
    · rw [hw, read_mk_full, hwa, List.drop_zero, List.take_zero, List.append_nil]
      generalize (RingBuffer.mk cap b p f).read = rs
      rw [lastN, List.length_append, List.drop_append_eq_append_drop,
        show rs.drop (rs.length + d.length - cap) = []
          from List.drop_eq_nil_iff.mpr (by omega),
        List.nil_append]
      congr 1
      omega
  · push_neg at hbig
    have hp : (b.take p).length = p := by
      rw [List.length_take]; omega
    by_cases hfit : d.length ≤ cap - p
    · -- data fits before the end of the backing buffer
      have hw : RingBuffer.write ⟨cap, b, p, f⟩ d
          = ⟨cap, writeAt b p d, (p + d.length) % cap,
             f || decide ((p + d.length) % cap < d.length)⟩ := by
        unfold RingBuffer.write
        dsimp only
        rw [if_neg (by omega), if_pos hfit]
      have hble : (writeAt b p d).length = cap := by
        rw [length_writeAt (by omega)]; exact hbuf
      by_cases hedge : p + d.length < cap
      · -- no wrap, cursor stays strictly inside the buffer
        have hmod : (p + d.length) % cap = p + d.length := Nat.mod_eq_of_lt hedge
        have htake : (writeAt b p d).take (p + d.length) = b.take p ++ d := by
          unfold writeAt
          exact List.take_left' (by rw [List.length_append, hp])
        have hdropw : (writeAt b p d).drop (p + d.length) = b.drop (p + d.length) := by
          unfold writeAt
          exact List.drop_left' (by rw [List.length_append, hp])
        rw [hw]
        refine ⟨rfl, hble, by show (p + d.length) % cap < cap; exact Nat.mod_lt _ hcap, ?_⟩
        have hfull : (f || decide ((p + d.length) % cap < d.length)) = f := by
          rw [hmod, decide_eq_false (by omega), Bool.or_false]
        rw [hfull]
        rcases f with _ | _
        · rw [read_mk_notfull, read_mk_notfull, hmod, htake,
            lastN_of_length_le (by rw [List.length_append, hp]; omega)]
        · rw [read_mk_full, read_mk_full, hmod, htake, hdropw,
            List.append_assoc, lastN]
          have h1 : (b.drop p ++ (b.take p ++ d)).length - cap = d.length := by
            simp only [List.length_append, List.length_drop, hp, hbuf]; omega
          rw [h1, List.drop_append_eq_append_drop, List.drop_drop,
            show d.length - (b.drop p).length = 0
              from by rw [List.length_drop]; omega,
            List.drop_zero]
      · -- cursor lands exactly at the end: wraps to 0 and the buffer is full
        have hpl : p + d.length = cap := by omega
        have hd0 : 0 < d.length := by omega
        have hmod : (p + d.length) % cap = 0 := by rw [hpl, Nat.mod_self]
        have hwa2 : writeAt b p d = b.take p ++ d := by
          unfold writeAt
          rw [hpl, show b.drop cap = [] from List.drop_eq_nil_iff.mpr (by omega),
            List.append_nil]
        rw [hw]
        refine ⟨rfl, hble, by show (p + d.length) % cap < cap; exact Nat.mod_lt _ hcap, ?_⟩
        have hfull : (f || decide ((p + d.length) % cap < d.length)) = true := by
          rw [hmod, decide_eq_true hd0, Bool.or_true]
        rw [hfull, hmod, read_mk_full, hwa2, List.drop_zero, List.take_zero,
          List.append_nil]
        rcases f with _ | _
        · rw [read_mk_notfull,
            lastN_of_length_le (by rw [List.length_append, hp]; omega)]
        · rw [read_mk_full, List.append_assoc, lastN]
          have h1 : (b.drop p ++ (b.take p ++ d)).length - cap = d.length := by
            simp only [List.length_append, List.length_drop, hp, hbuf]; omega
          rw [h1, List.drop_append_eq_append_drop,
            show (b.drop p).drop d.length = []
              from List.drop_eq_nil_iff.mpr (by rw [List.length_drop]; omega),
            List.nil_append,
            show d.length - (b.drop p).length = 0
              from by rw [List.length_drop, hbuf]; omega,
            List.drop_zero]
    · -- data wraps around the end of the buffer
      push_neg at hfit
      have hw : RingBuffer.write ⟨cap, b, p, f⟩ d
          = ⟨cap, writeAt (writeAt b p (d.take (cap - p))) 0 (d.drop (cap - p)),
             (p + d.length) % cap,
             f || decide ((p + d.length) % cap < d.length)⟩ := by
        unfold RingBuffer.write
        dsimp only
        rw [if_neg (by omega), if_neg (by omega)]
      have hmod : (p + d.length) % cap = p + d.length - cap := by
        rw [Nat.mod_eq_sub_mod (by omega), Nat.mod_eq_of_lt (by omega)]
      have htke : (d.take (cap - p)).length = cap - p := by
        rw [List.length_take]; omega
      have hdrp : (d.drop (cap - p)).length = p + d.length - cap := by
        rw [List.length_drop]; omega
      have hinner : writeAt b p (d.take (cap - p)) = b.take p ++ d.take (cap - p) := by
        unfold writeAt
        rw [htke, show p + (cap - p) = cap by omega,
          show b.drop cap = [] from List.drop_eq_nil_iff.mpr (by omega),
          List.append_nil]
      have houter : writeAt (writeAt b p (d.take (cap - p))) 0 (d.drop (cap - p))
          = d.drop (cap - p)
            ++ ((b.take p).drop (p + d.length - cap) ++ d.take (cap - p)) := by
        rw [hinner]
        unfold writeAt
        rw [List.take_zero, List.nil_append, Nat.zero_add, hdrp,
          List.drop_append_eq_append_drop,
          show p + d.length - cap - (b.take p).length = 0 from by rw [hp]; omega,
          List.drop_zero]
      have hlen : (writeAt (writeAt b p (d.take (cap - p))) 0 (d.drop (cap - p))).length
          = cap := by
        rw [houter]
        simp only [List.length_append, List.length_drop, List.length_take, hp]
        omega
      rw [hw]
      refine ⟨rfl, hlen, by show (p + d.length) % cap < cap; exact Nat.mod_lt _ hcap, ?_⟩
      have hfull : (f || decide ((p + d.length) % cap < d.length)) = true := by
        rw [hmod, decide_eq_true (by omega), Bool.or_true]
      rw [hfull, hmod, read_mk_full, houter,
        List.take_left' hdrp, List.drop_left' hdrp, List.append_assoc,
        List.take_append_drop]
      rcases f with _ | _
      · rw [read_mk_notfull, lastN,
          show (b.take p ++ d).length - cap = p + d.length - cap
            from by rw [List.length_append, hp],
          List.drop_append_eq_append_drop,
          show p + d.length - cap - (b.take p).length = 0 from by rw [hp]; omega,
          List.drop_zero]
      · rw [read_mk_full, List.append_assoc, lastN]
        have h1 : (b.drop p ++ (b.take p ++ d)).length - cap = d.length := by
          simp only [List.length_append, List.length_drop, hp, hbuf]; omega
        rw [h1, List.drop_append_eq_append_drop,
          show (b.drop p).drop d.length = []
            from List.drop_eq_nil_iff.mpr (by rw [List.length_drop]; omega),
          List.nil_append,
          show d.length - (b.drop p).length = p + d.length - cap
            from by rw [List.length_drop, hbuf]; omega,
          List.drop_append_eq_append_drop,
          show p + d.length - cap - (b.take p).length = 0 from by rw [hp]; omega,
          List.drop_zero]

theorem RingBuffer.length_eq_read_length (s : RingBuffer)
    (hbuf : s.buf.length = s.capacity) (hpos : s.pos ≤ s.capacity) :
    RingBuffer.length s = s.read.length := by
  obtain ⟨cap, b, p, f⟩ := s
  dsimp only at hbuf hpos ⊢
  rcases f with _ | _
  · rw [read_mk_notfull]
    show p = (b.take p).length
    rw [List.length_take]; omega
  · rw [read_mk_full]
    show cap = (b.drop p ++ b.take p).length
    rw [List.length_append, List.length_drop, List.length_take]; omega

/-- Folding a write sequence over a well-formed buffer keeps it well formed,
and `read` is the capacity-bounded tail of the previous contents followed by
all written data. -/
theorem RingBuffer.foldl_write (cap : Nat) (hcap : 0 < cap) (ws : List (List Nat)) :
    ∀ s : RingBuffer, s.capacity = cap → s.buf.length = cap → s.pos < cap →
      (ws.foldl RingBuffer.write s).capacity = cap ∧
      (ws.foldl RingBuffer.write s).buf.length = cap ∧
      (ws.foldl RingBuffer.write s).pos < cap ∧
      (ws.foldl RingBuffer.write s).read = lastN cap (s.read ++ ws.flatten) := by
  induction ws with
  | nil =>
    intro s h1 h2 h3
    refine ⟨h1, h2, h3, ?_⟩
    rw [List.foldl_nil, List.flatten_nil, List.append_nil]
    have hle : s.read.length ≤ cap := by
      rw [← h1, ← RingBuffer.length_eq_read_length s (by omega) (by omega)]
      unfold RingBuffer.length
      split <;> omega
    rw [lastN_of_length_le hle]
  | cons w ws ih =>
    intro s h1 h2 h3
    rw [List.foldl_cons]
    obtain ⟨c1, c2, c3, c4⟩ :=
      RingBuffer.write_step s w (by omega) (by omega) (by omega)
    obtain ⟨d1, d2, d3, d4⟩ := ih (s.write w) (by omega) (by omega) (by omega)
    refine ⟨d1, d2, d3, ?_⟩
    have c4' : (s.write w).read = lastN cap (s.read ++ w) := by rw [c4, h1]
    rw [d4, c4', lastN_append_lastN, List.append_assoc, List.flatten_cons]

/-- C1: for every sequence of writes `w₁,…,wₙ` into a `RingBuffer` of
capacity `c > 0`, `read()` equals the final `min(Σ|wᵢ|, c)` bytes of the
concatenation `w₁ ++ ⋯ ++ wₙ` (`lastN c` of the flattened sequence, which is
the whole concatenation when the total length is ≤ `c`), and `length` equals
`min(Σ|wᵢ|, c)`. -/
theorem ringBuffer_write_sequence (cap : Nat) (hcap : 0 < cap)
    (ws : List (List Nat)) :
    (ws.foldl RingBuffer.write (RingBuffer.new cap)).read = lastN cap ws.flatten ∧
    RingBuffer.length (ws.foldl RingBuffer.write (RingBuffer.new cap))
      = min ((ws.map List.length).sum) cap := by
  obtain ⟨c1, c2, c3, c4⟩ :=
    RingBuffer.foldl_write cap hcap ws (RingBuffer.new cap) rfl
      (by simp [RingBuffer.new]) (by simpa [RingBuffer.new] using hcap)
  have hread : (RingBuffer.new cap).read = [] := by
    simp [RingBuffer.new, RingBuffer.read]
  have hmain : (ws.foldl RingBuffer.write (RingBuffer.new cap)).read
      = lastN cap ws.flatten := by
    rw [c4, hread, List.nil_append]
  refine ⟨hmain, ?_⟩
  rw [RingBuffer.length_eq_read_length _ (by omega) (by omega), hmain,
    length_lastN, ← List.length_flatten]
  omega

/-- Witness for C1 at capacity 2 with write sequence `[[1], [2, 3]]`. -/
theorem ringBuffer_write_sequence_witness :
    (([[1], [2, 3]] : List (List Nat)).foldl RingBuffer.write
        (RingBuffer.new 2)).read
      = lastN 2 ([[1], [2, 3]] : List (List Nat)).flatten ∧
    RingBuffer.length (([[1], [2, 3]] : List (List Nat)).foldl RingBuffer.write
        (RingBuffer.new 2))
      = min ((([[1], [2, 3]] : List (List Nat)).map List.length).sum) 2 :=
  ringBuffer_write_sequence 2 (by decide) [[1], [2, 3]]

/- ============ Map helper lemmas ============ -/

theorem mapGet_eq_none_of_not_mem {V : Type} (m : List (String × V)) (k : String)
    (h : ∀ e ∈ m, e.1 ≠ k) : mapGet m k = none := by
  induction m with
  | nil => rfl
  | cons kv rest ih =>
    unfold mapGet
    rw [if_neg (h kv (by simp))]
    exact ih (fun e he => h e (by simp [he]))

theorem mapGet_of_mem_nodup {V : Type} (m : List (String × V)) (k : String) (v : V)
    (hnd : (m.map Prod.fst).Nodup) (hmem : (k, v) ∈ m) : mapGet m k = some v := by
  induction m with
  | nil => simp at hmem
  | cons kv rest ih =>
    rcases List.mem_cons.mp hmem with heq | htail
    · cases heq
      unfold mapGet
      rw [if_pos rfl]
    · unfold mapGet
      have hne : kv.1 ≠ k := by
        intro hcontra
        have hk : k ∈ rest.map Prod.fst := by
          exact List.mem_map.mpr ⟨(k, v), htail, rfl⟩
        rw [List.map_cons, List.nodup_cons] at hnd
        exact hnd.1 (hcontra ▸ hk)
      rw [if_neg hne]
      exact ih (by rw [List.map_cons, List.nodup_cons] at hnd; exact hnd.2) htail

theorem mapGet_eq_none_iff {V : Type} (m : List (String × V)) (k : String) :
    mapGet m k = none ↔ k ∉ m.map Prod.fst := by
  induction m with
  | nil => simp [mapGet]
  | cons kv rest ih =>
    unfold mapGet
    by_cases h : kv.1 = k
    · simp [h]
    · simp [h, ih, Ne.symm h]

theorem mapGet_mapSet_self {V : Type} (m : List (String × V)) (k : String) (v : V) :
    mapGet (mapSet m k v) k = some v := by
  induction m with
  | nil => simp [mapSet, mapGet]
  | cons kv rest ih =>
    unfold mapSet
    by_cases h : kv.1 = k
    · rw [if_pos h]
      unfold mapGet
      rw [if_pos rfl]
    · rw [if_neg h]
      unfold mapGet
      rw [if_neg h]
      exact ih

theorem mapGet_mapSet_ne {V : Type} (m : List (String × V)) (k t : String) (v : V)
    (h : k ≠ t) : mapGet (mapSet m k v) t = mapGet m t := by
  induction m with
  | nil => simp [mapSet, mapGet, h]
  | cons kv rest ih =>
    unfold mapSet
    by_cases hk : kv.1 = k
    · rw [if_pos hk]
      unfold mapGet
      rw [if_neg (show ¬((k, v).1 = t) from h),
        if_neg (show ¬(kv.1 = t) from by rw [hk]; exact h)]
    · rw [if_neg hk]
      unfold mapGet
      by_cases ht : kv.1 = t
      · rw [if_pos ht, if_pos ht]
      · rw [if_neg ht, if_neg ht]
        exact ih

/- ============ C10: getAgentCols ============ -/

/-- C10: `getAgentCols` returns the default 80 for every agent id not
present in the session pool instead of failing; for an agent in the pool it
returns that session PTY column count. -/
theorem getAgentCols_spec (sessions : List (String × PtySession)) (agentId : String) :
    ((∀ e ∈ sessions, e.1 ≠ agentId) → getAgentCols sessions agentId = 80) ∧
    (∀ s : PtySession, (sessions.map Prod.fst).Nodup → (agentId, s) ∈ sessions →
      getAgentCols sessions agentId = s.cols) := by
  constructor
  · intro h
    unfold getAgentCols
    rw [mapGet_eq_none_of_not_mem sessions agentId h]
  · intro s hnd hmem
    unfold getAgentCols
    rw [mapGet_of_mem_nodup sessions agentId s hnd hmem]

/-- Witness for C10: a missing agent yields 80, a present one its cols. -/
theorem getAgentCols_spec_witness :
    getAgentCols [] "missing" = 80 ∧
    getAgentCols [("a", demoSession "a" "T" 120 (RingBuffer.new 4))] "a"
      = (demoSession "a" "T" 120 (RingBuffer.new 4)).cols :=
  ⟨(getAgentCols_spec [] "missing").1 (by simp),
   (getAgentCols_spec [("a", demoSession "a" "T" 120 (RingBuffer.new 4))] "a").2
     (demoSession "a" "T" 120 (RingBuffer.new 4)) (by simp) (by simp)⟩

/- ============ C9: spawn environment deny list ============ -/

/-- C9: the child environment never depends on caller-supplied values for
deny-listed keys — two override maps agreeing outside the deny list give
identical child environments — and the nested-agent variables `CLAUDECODE`,
`CLAUDE_CODE_SESSION`, `CLAUDE_CODE_ENTRYPOINT` are never present. -/
theorem spawnEnv_denylist (procEnv : String → Option String) :
    (∀ e1 e2 : String → Option String,
      (∀ k, ¬ ENV_BLOCK_LIST.contains k = true → e1 k = e2 k) →
      buildSpawnEnv procEnv e1 = buildSpawnEnv procEnv e2) ∧
    (∀ overrides : String → Option String, ∀ k,
      NESTED_AGENT_VARS.contains k = true →
      buildSpawnEnv procEnv overrides k = none) := by
  constructor
  · intro e1 e2 h
    funext k
    unfold buildSpawnEnv safeEnvOverrides
    by_cases hn : k ∈ NESTED_AGENT_VARS
    · simp [hn]
    · by_cases hb : k ∈ ENV_BLOCK_LIST
      · simp [hn, hb]
      · have he : e1 k = e2 k := h k (by simpa using hb)
        simp [hn, hb, he]
  · intro ov k hk
    unfold buildSpawnEnv
    rw [if_pos hk]

/-- Witness for C9: an override map that sets only `PATH` produces the very
environment of the empty override map, and `CLAUDECODE` is absent. -/
theorem spawnEnv_denylist_witness :
    buildSpawnEnv (fun _ => none) (fun k => if k = "PATH" then some "evil" else none)
      = buildSpawnEnv (fun _ => none) (fun _ => none) ∧
    buildSpawnEnv (fun _ => none) (fun _ => none) "CLAUDECODE" = none :=
  ⟨(spawnEnv_denylist (fun _ => none)).1 _ _ (fun k hk => by
      by_cases hp : k = "PATH"
      · exact absurd (by rw [hp]; decide) hk
      · simp [hp]),
   (spawnEnv_denylist (fun _ => none)).2 (fun _ => none) "CLAUDECODE" (by decide)⟩

/- ============ C6: spawn command validation ============ -/

/-- C6: `spawnAgent` raises `ErrInvalidCommand` exactly when the effective
command contains one of the characters `; & | $ ( ) { }`, a backtick or a
newline; on the raise the pool is unchanged and no `spawn` event is
emitted; otherwise (bare names, absolute paths without those characters)
the session is inserted and one `spawn` event emitted. -/
theorem spawnAgent_validation (sessions : List (String × PtySession))
    (procEnv : String → Option String) (args : SpawnArgs) :
    (hasDisallowedChar (effectiveCommand procEnv args) = true ↔
      ∃ c ∈ (effectiveCommand procEnv args).data,
        c.toNat ∈ commandDisallowedCodes) ∧
    (hasDisallowedChar (effectiveCommand procEnv args) = true →
      spawnAgent sessions procEnv args
        = (sessions, [], some SpawnErr.errInvalidCommand)) ∧
    (hasDisallowedChar (effectiveCommand procEnv args) = false →
      spawnAgent sessions procEnv args
        = (mapSet sessions args.agentId (spawnSession procEnv args),
           [{ topic := "spawn", agentId := args.agentId }], none)) := by
  refine ⟨?_, ?_, ?_⟩
  · unfold hasDisallowedChar
    simp [List.any_eq_true]
  · intro h
    unfold spawnAgent
    rw [h]
    rfl
  · intro h
    unfold spawnAgent
    rw [h]
    rfl

/-- Witness for C6: `a;b` is rejected leaving the empty pool unchanged,
`/bin/echo` is accepted and inserted with a spawn event. -/
theorem spawnAgent_validation_witness :
    spawnAgent [] (fun _ => none) badSpawnArgs
      = ([], [], some SpawnErr.errInvalidCommand) ∧
    spawnAgent [] (fun _ => none) goodSpawnArgs
      = (mapSet [] goodSpawnArgs.agentId (spawnSession (fun _ => none) goodSpawnArgs),
         [{ topic := "spawn", agentId := goodSpawnArgs.agentId }], none) :=
  ⟨(spawnAgent_validation [] (fun _ => none) badSpawnArgs).2.1 (by decide),
   (spawnAgent_validation [] (fun _ => none) goodSpawnArgs).2.2 (by decide)⟩

/- ============ C5: event bus listener semantics ============ -/

/-- C5 counterexample: two listeners registered in order 0, 1; listener 0
throws; the emit invokes only listener 0 — the exception prevents listener
1 from being invoked, contradicting the claim that a listener exception
does not prevent the remaining listeners. -/
theorem emitPtyEvent_counterexample :
    (emitPtyEvent (addListener (addListener [] 0) 1) (fun n => n == 0)).1 = [0] ∧
    1 ∉ (emitPtyEvent (addListener (addListener [] 0) 1) (fun n => n == 0)).1 ∧
    (emitPtyEvent (addListener (addListener [] 0) 1) (fun n => n == 0)).2 = some 0 := by
  decide

/-- C5 amended: listeners are invoked synchronously in registration order
up to and including the first throwing listener; an exception thrown by a
listener stops the iteration — the remaining listeners are not invoked —
and propagates out of the emit. -/
theorem emitPtyEvent_order (listeners : List Nat) (throws : Nat → Bool) :
    (emitPtyEvent listeners throws).1
      = listeners.takeWhile (fun l => ! throws l)
        ++ (listeners.dropWhile (fun l => ! throws l)).take 1 ∧
    (emitPtyEvent listeners throws).2
      = (listeners.dropWhile (fun l => ! throws l)).head? := by
  induction listeners with
  | nil => exact ⟨rfl, rfl⟩
  | cons l rest ih =>
    unfold emitPtyEvent
    rcases hl : throws l with _ | _
    · simp [List.takeWhile_cons, List.dropWhile_cons, hl, ih.1, ih.2]
    · simp [List.takeWhile_cons, List.dropWhile_cons, hl]

/- ============ C3 / C8: RemoteAgent projection dedup ============ -/

theorem isRunning_iff (s : AStatus) : s.isRunning = true ↔ s = AStatus.running := by
  cases s <;> simp [AStatus.isRunning]

theorem find?_running_cons_true (a : RemoteAgent) (c : List RemoteAgent)
    (h : a.status.isRunning = true) :
    (a :: c).find? (fun x => x.status.isRunning) = some a := by
  rw [List.find?_cons]
  simp [h]

theorem find?_running_cons_false (a : RemoteAgent) (c : List RemoteAgent)
    (h : a.status.isRunning = false) :
    (a :: c).find? (fun x => x.status.isRunning)
      = c.find? (fun x => x.status.isRunning) := by
  rw [List.find?_cons]
  simp [h]

theorem mergeChoose_nil (o : Option RemoteAgent) : mergeChoose o [] = o := by
  cases o with
  | none => rfl
  | some cur =>
    rcases hr : cur.status.isRunning with _ | _ <;> simp [mergeChoose, hr]

theorem mergeChoose_some_cons (a : RemoteAgent) (c : List RemoteAgent) :
    mergeChoose (some a) c = chooseEntry (a :: c) := by
  simp only [mergeChoose, chooseEntry, List.find?_cons]
  rcases hr : a.status.isRunning with _ | _
  · rcases hf : c.find? (fun x => x.status.isRunning) with _ | r
    · simp [hr, hf]
    · simp [hr, hf]
  · simp [hr]

theorem chooseEntry_eq_none_iff (c : List RemoteAgent) :
    chooseEntry c = none ↔ c = [] := by
  cases c with
  | nil => simp [chooseEntry]
  | cons a l =>
    simp only [chooseEntry]
    constructor
    · intro h
      rcases hf : (a :: l).find? (fun x => x.status.isRunning) with _ | r
      · rw [hf] at h
        simp at h
      · rw [hf] at h
        simp at h
    · intro h
      cases h

theorem byTaskStep_meta_none (sessions : List (String × PtySession))
    (tn : String → String) (st : String → AgentStatusInfo)
    (acc : List (String × RemoteAgent)) (id : String)
    (h : getAgentMeta sessions id = none) :
    byTaskStep sessions tn st acc id = acc := by
  simp only [byTaskStep, h]

theorem byTaskStep_insert (sessions : List (String × PtySession))
    (tn : String → String) (st : String → AgentStatusInfo)
    (acc : List (String × RemoteAgent)) (id : String) (meta : String × String)
    (h1 : getAgentMeta sessions id = some meta)
    (h2 : mapGet acc meta.1 = none) :
    byTaskStep sessions tn st acc id
      = mapSet acc meta.1 (mkRemoteAgent tn st id meta.1) := by
  simp only [byTaskStep, h1, h2]

theorem byTaskStep_replace (sessions : List (String × PtySession))
    (tn : String → String) (st : String → AgentStatusInfo)
    (acc : List (String × RemoteAgent)) (id : String) (meta : String × String)
    (ex : RemoteAgent)
    (h1 : getAgentMeta sessions id = some meta)
    (h2 : mapGet acc meta.1 = some ex)
    (h3 : (mkRemoteAgent tn st id meta.1).status = AStatus.running
          ∧ ex.status ≠ AStatus.running) :
    byTaskStep sessions tn st acc id
      = mapSet acc meta.1 (mkRemoteAgent tn st id meta.1) := by
  simp only [byTaskStep, h1, h2, if_pos h3]

theorem byTaskStep_keep (sessions : List (String × PtySession))
    (tn : String → String) (st : String → AgentStatusInfo)
    (acc : List (String × RemoteAgent)) (id : String) (meta : String × String)
    (ex : RemoteAgent)
    (h1 : getAgentMeta sessions id = some meta)
    (h2 : mapGet acc meta.1 = some ex)
    (h3 : ¬ ((mkRemoteAgent tn st id meta.1).status = AStatus.running
             ∧ ex.status ≠ AStatus.running)) :
    byTaskStep sessions tn st acc id = acc := by
  simp only [byTaskStep, h1, h2, if_neg h3]

/-- The central dedup invariant: folding the remaining ids over any
accumulator updates each task entry by `mergeChoose` over the candidate
agents those ids contribute. -/
theorem byTask_fold_get (sessions : List (String × PtySession))
    (tn : String → String) (st : String → AgentStatusInfo) (ids : List String) :
    ∀ (acc : List (String × RemoteAgent)) (t : String),
      mapGet (ids.foldl (byTaskStep sessions tn st) acc) t
        = mergeChoose (mapGet acc t)
            ((ids.filterMap (projAgent sessions tn st)).filter
              (fun a => a.taskId == t)) := by
  induction ids with
  | nil =>
    intro acc t
    rw [List.foldl_nil, List.filterMap_nil, List.filter_nil, mergeChoose_nil]
  | cons id ids ih =>
    intro acc t
    rw [List.foldl_cons, ih, List.filterMap_cons]
    cases hm : getAgentMeta sessions id with
    | none =>
      have hproj : projAgent sessions tn st id = none := by
        unfold projAgent
        rw [hm]
        rfl
      rw [hproj, byTaskStep_meta_none _ _ _ _ _ hm]
    | some meta =>
      have hproj : projAgent sessions tn st id
          = some (mkRemoteAgent tn st id meta.1) := by
        unfold projAgent
        rw [hm]
        rfl
      rw [hproj]
      have hA : (mkRemoteAgent tn st id meta.1).taskId = meta.1 := rfl
      by_cases hkt : meta.1 = t
      · subst hkt
        rw [List.filter_cons_of_pos (by simp [hA])]
        cases hg : mapGet acc meta.1 with
        | none =>
          rw [byTaskStep_insert _ _ _ _ _ _ hm hg, mapGet_mapSet_self,
            mergeChoose_some_cons]
          simp only [mergeChoose]
        | some ex =>
          by_cases hrepl : (mkRemoteAgent tn st id meta.1).status = AStatus.running
              ∧ ex.status ≠ AStatus.running
          · rw [byTaskStep_replace _ _ _ _ _ _ _ hm hg hrepl, mapGet_mapSet_self]
            have hAr : (mkRemoteAgent tn st id meta.1).status.isRunning = true :=
              (isRunning_iff _).mpr hrepl.1
            have hExr : ex.status.isRunning = false := by
              rcases hs : ex.status with _ | _
              · exact absurd hs hrepl.2
              · rfl
            simp only [mergeChoose]
            rw [if_pos hAr, if_neg (by rw [hExr]; simp),
              find?_running_cons_true _ _ hAr]
          · rw [byTaskStep_keep _ _ _ _ _ _ _ hm hg hrepl, hg]
            by_cases hex : ex.status = AStatus.running
            · have h1 : ex.status.isRunning = true := (isRunning_iff _).mpr hex
              simp only [mergeChoose]
              rw [if_pos h1, if_pos h1]
            · have h1 : ex.status.isRunning = false := by
                rcases hs : ex.status with _ | _
                · exact absurd hs hex
                · rfl
              have hAnr : (mkRemoteAgent tn st id meta.1).status.isRunning = false := by
                rcases hs : (mkRemoteAgent tn st id meta.1).status with _ | _
                · exact absurd ⟨hs, hex⟩ hrepl
                · rfl
              simp only [mergeChoose]
              rw [if_neg (by rw [h1]; simp), if_neg (by rw [h1]; simp),
                find?_running_cons_false _ _ hAnr]
      · rw [List.filter_cons_of_neg (by simp [hA]; exact hkt)]
        cases hg : mapGet acc meta.1 with
        | none =>
          rw [byTaskStep_insert _ _ _ _ _ _ hm hg, mapGet_mapSet_ne _ _ _ _ hkt]
        | some ex =>
          by_cases hrepl : (mkRemoteAgent tn st id meta.1).status = AStatus.running
              ∧ ex.status ≠ AStatus.running
          · rw [byTaskStep_replace _ _ _ _ _ _ _ hm hg hrepl,
              mapGet_mapSet_ne _ _ _ _ hkt]
          · rw [byTaskStep_keep _ _ _ _ _ _ _ hm hg hrepl]

theorem mapSet_forall {V : Type} (P : String × V → Prop)
    (m : List (String × V)) (k : String) (v : V)
    (hm : ∀ kv ∈ m, P kv) (hv : P (k, v)) : ∀ kv ∈ mapSet m k v, P kv := by
  induction m with
  | nil =>
    intro kv hkv
    simp [mapSet] at hkv
    rw [hkv]
    exact hv
  | cons e rest ih =>
    intro kv hkv
    unfold mapSet at hkv
    by_cases he : e.1 = k
    · rw [if_pos he] at hkv
      rcases List.mem_cons.mp hkv with h1 | h2
      · rw [h1]
        exact hv
      · exact hm kv (List.mem_cons_of_mem _ h2)
    · rw [if_neg he] at hkv
      rcases List.mem_cons.mp hkv with h1 | h2
      · exact hm kv (h1 ▸ List.mem_cons_self _ _)
      · exact ih (fun e' he' => hm e' (List.mem_cons_of_mem _ he')) kv h2

/-- Every entry of the fold result has its task id as its key. -/
theorem byTask_fold_keyinv (sessions : List (String × PtySession))
    (tn : String → String) (st : String → AgentStatusInfo) (ids : List String) :
    ∀ acc : List (String × RemoteAgent),
      (∀ kv ∈ acc, kv.2.taskId = kv.1) →
      ∀ kv ∈ ids.foldl (byTaskStep sessions tn st) acc, kv.2.taskId = kv.1 := by
  induction ids with
  | nil =>
    intro acc hacc
    exact hacc
  | cons id ids ih =>
    intro acc hacc
    rw [List.foldl_cons]
    cases hm : getAgentMeta sessions id with
    | none =>
      rw [byTaskStep_meta_none _ _ _ _ _ hm]
      exact ih acc hacc
    | some meta =>
      cases hg : mapGet acc meta.1 with
      | none =>
        rw [byTaskStep_insert _ _ _ _ _ _ hm hg]
        exact ih _ (mapSet_forall _ acc meta.1 (mkRemoteAgent tn st id meta.1) hacc rfl)
      | some ex =>
        by_cases hrepl : (mkRemoteAgent tn st id meta.1).status = AStatus.running
            ∧ ex.status ≠ AStatus.running
        · rw [byTaskStep_replace _ _ _ _ _ _ _ hm hg hrepl]
          exact ih _ (mapSet_forall _ acc meta.1 (mkRemoteAgent tn st id meta.1) hacc rfl)
        · rw [byTaskStep_keep _ _ _ _ _ _ _ hm hg hrepl]
          exact ih acc hacc

theorem mapSet_keys_mem {V : Type} (m : List (String × V)) (k x : String) (v : V) :
    x ∈ (mapSet m k v).map Prod.fst ↔ x ∈ m.map Prod.fst ∨ x = k := by
  induction m with
  | nil => simp [mapSet]
  | cons e rest ih =>
    unfold mapSet
    by_cases he : e.1 = k
    · rw [if_pos he]
      simp [he]
      tauto
    · rw [if_neg he]
      simp [ih]
      tauto

theorem mapSet_keys_nodup {V : Type} (m : List (String × V)) (k : String) (v : V)
    (h : (m.map Prod.fst).Nodup) : ((mapSet m k v).map Prod.fst).Nodup := by
  induction m with
  | nil => simp [mapSet]
  | cons e rest ih =>
    unfold mapSet
    rw [List.map_cons, List.nodup_cons] at h
    by_cases he : e.1 = k
    · rw [if_pos he, List.map_cons, List.nodup_cons]
      exact ⟨he ▸ h.1, h.2⟩
    · rw [if_neg he, List.map_cons, List.nodup_cons]
      refine ⟨?_, ih h.2⟩
      rw [mapSet_keys_mem]
      push_neg
      exact ⟨h.1, he⟩

/-- The fold result has pairwise distinct keys. -/
theorem byTask_fold_keys_nodup (sessions : List (String × PtySession))
    (tn : String → String) (st : String → AgentStatusInfo) (ids : List String) :
    ∀ acc : List (String × RemoteAgent),
      (acc.map Prod.fst).Nodup →
      ((ids.foldl (byTaskStep sessions tn st) acc).map Prod.fst).Nodup := by
  induction ids with
  | nil =>
    intro acc hacc
    exact hacc
  | cons id ids ih =>
    intro acc hacc
    rw [List.foldl_cons]
    cases hm : getAgentMeta sessions id with
    | none =>
      rw [byTaskStep_meta_none _ _ _ _ _ hm]
      exact ih acc hacc
    | some meta =>
      cases hg : mapGet acc meta.1 with
      | none =>
        rw [byTaskStep_insert _ _ _ _ _ _ hm hg]
        exact ih _ (mapSet_keys_nodup acc meta.1 _ hacc)
      | some ex =>
        by_cases hrepl : (mkRemoteAgent tn st id meta.1).status = AStatus.running
            ∧ ex.status ≠ AStatus.running
        · rw [byTaskStep_replace _ _ _ _ _ _ _ hm hg hrepl]
          exact ih _ (mapSet_keys_nodup acc meta.1 _ hacc)
        · rw [byTaskStep_keep _ _ _ _ _ _ _ hm hg hrepl]
          exact ih acc hacc

/-- Looking up a task entry among the values equals the keyed lookup when
every entry is keyed by its task id. -/
theorem find_taskId_eq_mapGet (m : List (String × RemoteAgent)) (t : String)
    (hinv : ∀ kv ∈ m, kv.2.taskId = kv.1) :
    (m.map Prod.snd).find? (fun a => a.taskId == t) = mapGet m t := by
  induction m with
  | nil => rfl
  | cons kv rest ih =>
    rw [List.map_cons]
    have hkv : kv.2.taskId = kv.1 := hinv kv (List.mem_cons_self _ _)
    by_cases hk : kv.1 = t
    · rw [List.find?_cons_of_pos _ (by simp [hkv, hk])]
      unfold mapGet
      rw [if_pos hk]
    · rw [List.find?_cons_of_neg _ (by simp [hkv]; exact hk)]
      unfold mapGet
      rw [if_neg hk]
      exact ih (fun e he => hinv e (List.mem_cons_of_mem _ he))

/-- C3 counterexample: two agents `a1`, `a2` (iteration order `a1` first)
share task `T` and both are running; the claim says the last-seen (`a2`)
entry is kept, but the code keeps the first-seen (`a1`) — the replacement
condition requires the stored entry not to be running. -/
theorem buildAgentList_lastSeen_counterexample :
    (buildAgentList c3Pool demoTaskName allRunningStatus).map RemoteAgent.agentId
      = ["a1"] ∧
    (buildAgentList c3Pool demoTaskName allRunningStatus).map RemoteAgent.agentId
      ≠ ["a2"] := by
  decide

/-- C3 amended: when two agents map to the same task id and both are
running, or neither is running, the entry kept is the FIRST-seen one; in
general the entry kept for a task is the first projected agent (in
iteration order over active agent ids) whose status is running, or the
first projected agent of the task when none is running. -/
theorem buildAgentList_keeps_first (sessions : List (String × PtySession))
    (tn : String → String) (st : String → AgentStatusInfo) (t : String) :
    (buildAgentList sessions tn st).find? (fun a => a.taskId == t)
      = chooseEntry ((projectedAgents sessions tn st).filter
          (fun a => a.taskId == t)) := by
  unfold buildAgentList
  rw [find_taskId_eq_mapGet _ t
      (byTask_fold_keyinv sessions tn st (getActiveAgentIds sessions) [] (by simp)),
    byTask_fold_get sessions tn st (getActiveAgentIds sessions) [] t]
  simp only [mapGet, mergeChoose, projectedAgents]

/-- C8: the RemoteAgent projection has exactly one entry per distinct task
id of the active agents (its task ids are pairwise distinct and are exactly
the task ids seen among the agents), and whenever some agent of a task is
running, the entry kept for that task id is running. -/
theorem buildAgentList_dedup (sessions : List (String × PtySession))
    (tn : String → String) (st : String → AgentStatusInfo) :
    ((buildAgentList sessions tn st).map RemoteAgent.taskId).Nodup ∧
    (∀ t, t ∈ (buildAgentList sessions tn st).map RemoteAgent.taskId ↔
          t ∈ (projectedAgents sessions tn st).map RemoteAgent.taskId) ∧
    (∀ t a, a ∈ buildAgentList sessions tn st → a.taskId = t →
      (∃ b ∈ projectedAgents sessions tn st,
        b.taskId = t ∧ b.status = AStatus.running) →
      a.status = AStatus.running) := by
  have hinv := byTask_fold_keyinv sessions tn st (getActiveAgentIds sessions) [] (by simp)
  have hnd := byTask_fold_keys_nodup sessions tn st (getActiveAgentIds sessions) [] (by simp)
  have hget : ∀ t, mapGet ((getActiveAgentIds sessions).foldl
      (byTaskStep sessions tn st) []) t
      = chooseEntry ((projectedAgents sessions tn st).filter
          (fun a => a.taskId == t)) := by
    intro t
    rw [byTask_fold_get sessions tn st (getActiveAgentIds sessions) [] t]
    simp only [mapGet, mergeChoose, projectedAgents]
  have hmaps : (buildAgentList sessions tn st).map RemoteAgent.taskId
      = ((getActiveAgentIds sessions).foldl (byTaskStep sessions tn st) []).map
          Prod.fst := by
    unfold buildAgentList
    rw [List.map_map]
    exact List.map_congr_left (fun kv hkv => hinv kv hkv)
  refine ⟨by rw [hmaps]; exact hnd, ?_, ?_⟩
  · intro t
    rw [hmaps]
    constructor
    · intro ht
      by_contra hnot
      have hnil : (projectedAgents sessions tn st).filter (fun a => a.taskId == t)
          = [] := by
        rw [List.filter_eq_nil_iff]
        intro a ha
        simp only [beq_iff_eq]
        intro hta
        exact hnot (List.mem_map.mpr ⟨a, ha, hta⟩)
      have hnone : mapGet ((getActiveAgentIds sessions).foldl
          (byTaskStep sessions tn st) []) t = none := by
        rw [hget t, hnil]
        rfl
      exact (mapGet_eq_none_iff _ t).mp hnone ht
    · intro ht
      rcases List.mem_map.mp ht with ⟨a, ha, hta⟩
      by_contra hnot
      have hnone : mapGet ((getActiveAgentIds sessions).foldl
          (byTaskStep sessions tn st) []) t = none :=
        (mapGet_eq_none_iff _ t).mpr hnot
      rw [hget t] at hnone
      have hnil := (chooseEntry_eq_none_iff _).mp hnone
      have := (List.filter_eq_nil_iff.mp hnil) a ha
      simp [hta] at this
  · intro t a hmem hta hex
    unfold buildAgentList at hmem
    rcases List.mem_map.mp hmem with ⟨kv, hkv, hkva⟩
    obtain ⟨k, v⟩ := kv
    have hk : v.taskId = k := hinv (k, v) hkv
    have hkt : k = t := by
      rw [← hta, ← hkva]
      exact hk.symm
    subst hkt
    have hva : v = a := hkva
    subst hva
    have hsome : mapGet ((getActiveAgentIds sessions).foldl
        (byTaskStep sessions tn st) []) k = some v :=
      mapGet_of_mem_nodup _ k v hnd hkv
    rw [hget k] at hsome
    rcases hex with ⟨b, hb, hbt, hbrun⟩
    have hbmem : b ∈ (projectedAgents sessions tn st).filter
        (fun a => a.taskId == k) :=
      List.mem_filter.mpr ⟨hb, by simp [hbt]⟩
    have hfind : ∃ r, ((projectedAgents sessions tn st).filter
        (fun a => a.taskId == k)).find? (fun x => x.status.isRunning) = some r := by
      rw [← Option.isSome_iff_exists, List.find?_isSome]
      exact ⟨b, hbmem, (isRunning_iff _).mpr hbrun⟩
    rcases hfind with ⟨r, hr⟩
    have hpr := List.find?_some hr
    have hrrun : r.status = AStatus.running := (isRunning_iff _).mp (by simpa using hpr)
    unfold chooseEntry at hsome
    rw [hr] at hsome
    have : r = v := by
      simpa using hsome
    rw [← this]
    exact hrrun

/-- Witness for C8 at a pool with one exited and one running agent of the
same task: the kept entry is the running one. -/
theorem buildAgentList_dedup_witness :
    ({ agentId := "a2", taskId := "T", taskName := "task",
       status := AStatus.running, exitCode := none, lastLine := "" } :
       RemoteAgent).status = AStatus.running :=
  (buildAgentList_dedup c3Pool demoTaskName c8Status).2.2 "T"
    { agentId := "a2", taskId := "T", taskName := "task",
      status := AStatus.running, exitCode := none, lastLine := "" }
    (by decide) (by decide) (by decide)

/- ============ C2: authentication contract ============ -/

theorem safeCompare_iff (token : String) (htok : token ≠ "") (c : Option String) :
    safeCompare token c = true ↔ c = some token := by
  cases c with
  | none => simp [safeCompare]
  | some s =>
    simp only [safeCompare]
    by_cases hs : s = ""
    · subst hs
      rw [if_pos rfl]
      simp [eq_comm, htok]
    · rw [if_neg hs]
      simp [beq_iff_eq]

theorem bearer_auth_iff (token : String) (htok : token ≠ "") (auth : String) :
    (jsStartsWith auth "Bearer "
      && safeCompare token (some (jsDropChars auth 7))) = true
      ↔ auth = "Bearer " ++ token := by
  have hlen : ("Bearer " : String).data.length = 7 := rfl
  constructor
  · intro h
    rw [Bool.and_eq_true] at h
    obtain ⟨h1, h2⟩ := h
    unfold jsStartsWith at h1
    rw [beq_iff_eq, hlen] at h1
    have h3 := (safeCompare_iff token htok _).mp h2
    have h4 : jsDropChars auth 7 = token := by simpa using h3
    have h5 : auth.data.drop 7 = token.data := by
      rw [← h4]
      rfl
    apply String.ext
    rw [String.data_append]
    calc auth.data = auth.data.take 7 ++ auth.data.drop 7 :=
          (List.take_append_drop 7 _).symm
      _ = ("Bearer " : String).data ++ token.data := by rw [h1, h5]
  · intro h
    subst h
    rw [Bool.and_eq_true]
    constructor
    · unfold jsStartsWith
      rw [beq_iff_eq, String.data_append, hlen]
      exact List.take_left' hlen
    · rw [safeCompare_iff token htok]
      have hdrop : ("Bearer " ++ token).data.drop 7 = token.data := by
        rw [String.data_append]
        exact List.drop_left' hlen
      unfold jsDropChars
      rw [hdrop]

/-- C2: a request is authenticated iff it carries an Authorization header
exactly of the form `Bearer <token>` or a `token` query parameter equal to
the server token (the token is nonempty: 24 random bytes base64url-encoded
are 32 characters); no other request authenticates, and every `/api/`
request failing this check receives status 401 with the JSON body
`\x7b"error":"unauthorized"\x7d`. -/
theorem authentication_contract (token : String) (htok : token ≠ "")
    (sessions : List (String × PtySession)) (tn : String → String)
    (st : String → AgentStatusInfo) (req : AuthRequest) :
    (checkAuth token req = true ↔
      req.authorization = some ("Bearer " ++ token)
      ∨ req.queryToken = some token) ∧
    (jsStartsWith req.pathname "/api/" = true → checkAuth token req = false →
      handleApiRequest token sessions tn st req
        = some { status := 401,
                 body := JVal.jobj [("error", JVal.jstr "unauthorized")] }) := by
  constructor
  · unfold checkAuth
    rw [Bool.or_eq_true]
    cases hauth : req.authorization with
    | none =>
      rw [safeCompare_iff token htok]
      simp
    | some auth =>
      rw [bearer_auth_iff token htok auth, safeCompare_iff token htok]
      simp
  · intro hpath hfail
    unfold handleApiRequest
    rw [if_pos hpath, if_pos (by rw [hfail]; simp)]

/-- Witness for C2: a tokenless request to `/api/agents` is refused with
the 401 unauthorized JSON body, and the auth characterization holds there. -/
theorem authentication_contract_witness :
    (checkAuth "tok"
        { authorization := none, queryToken := none,
          pathname := "/api/agents", method := "GET" } = true ↔
      ({ authorization := none, queryToken := none, pathname := "/api/agents",
         method := "GET" } : AuthRequest).authorization
          = some ("Bearer " ++ "tok")
      ∨ ({ authorization := none, queryToken := none, pathname := "/api/agents",
           method := "GET" } : AuthRequest).queryToken = some "tok") ∧
    handleApiRequest "tok" [] demoTaskName allRunningStatus
        { authorization := none, queryToken := none,
          pathname := "/api/agents", method := "GET" }
      = some { status := 401,
               body := JVal.jobj [("error", JVal.jstr "unauthorized")] } :=
  ⟨(authentication_contract "tok" (by decide) [] demoTaskName allRunningStatus
      { authorization := none, queryToken := none,
        pathname := "/api/agents", method := "GET" }).1,
   (authentication_contract "tok" (by decide) [] demoTaskName allRunningStatus
      { authorization := none, queryToken := none,
        pathname := "/api/agents", method := "GET" }).2 (by decide) (by decide)⟩

/- ============ C7: client frame validation ============ -/

/-- C7: `parseClientMessage` returns a frame exactly on the inputs the
validation table admits — JSON with a string `type` among the five frame
names, a string `agentId` of length ≤ 100, for `input` a string `data` of
length ≤ 4096, and for `resize` integer `cols`/`rows` in `[1, 500]`; every
other input (length 101 or 4097, values 0 or 501 included) yields null. -/
theorem parseClientMessage_valid (m : Option JVal) :
    (parseClientMessage m).isSome = clientFrameValidSpec m := by
  cases m with
  | none => rfl
  | some v =>
    simp only [parseClientMessage, clientFrameValidSpec]
    rcases h1 : jGet v "type" with _ | tv
    · rfl
    · cases tv with
      | jstr ty =>
        rcases h2 : jGet v "agentId" with _ | av
        · rfl
        · cases av with
          | jstr aid =>
            by_cases haid : 100 < aid.length
            · simp [haid, show ¬ aid.length ≤ 100 from by omega]
            · have hdle : aid.length ≤ 100 := by omega
              by_cases hty1 : ty = "input"
              · subst hty1
                rcases h3 : jGet v "data" with _ | dv
                · simp [hdle, haid]
                · cases dv with
                  | jstr data =>
                    by_cases hdata : 4096 < data.length
                    · simp [haid, hdle, hdata, show ¬ data.length ≤ 4096 from by omega]
                    · simp [haid, hdle, hdata, show data.length ≤ 4096 from by omega]
                  | jnull => simp [haid, hdle]
                  | jbool b => simp [haid, hdle]
                  | jnum q => simp [haid, hdle]
                  | jarr elems => simp [haid, hdle]
                  | jobj fields => simp [haid, hdle]
              · by_cases hty2 : ty = "resize"
                · subst hty2
                  rcases h4 : jGet v "cols" with _ | cv
                  · simp [haid, hdle, hty1]
                  · rcases h5 : jGet v "rows" with _ | rv
                    · cases cv <;> simp [haid, hdle, hty1]
                    · cases cv with
                      | jnum c =>
                        cases rv with
                        | jnum r =>
                          by_cases hA : ¬ c.den = 1 ∨ ¬ r.den = 1
                          · rcases hA with hc | hr
                            · simp [haid, hdle, hty1, hc]
                            · simp [haid, hdle, hty1, hr]
                          · push_neg at hA
                            by_cases hB : c < 1 ∨ 500 < c ∨ r < 1 ∨ 500 < r
                            · rcases hB with h | h | h | h
                              · simp [haid, hdle, hty1, hA.1, hA.2,
                                  show ¬ (1 : Rat) ≤ c from not_le.mpr h,
                                  show ¬ (¬ c.den = 1 ∨ ¬ r.den = 1) from by
                                    push_neg; exact hA, h]
                              · simp [haid, hdle, hty1, hA.1, hA.2,
                                  show ¬ c ≤ (500 : Rat) from not_le.mpr h,
                                  show ¬ (¬ c.den = 1 ∨ ¬ r.den = 1) from by
                                    push_neg; exact hA, h]
                              · simp [haid, hdle, hty1, hA.1, hA.2,
                                  show ¬ (1 : Rat) ≤ r from not_le.mpr h,
                                  show ¬ (¬ c.den = 1 ∨ ¬ r.den = 1) from by
                                    push_neg; exact hA, h]
                              · simp [haid, hdle, hty1, hA.1, hA.2,
                                  show ¬ r ≤ (500 : Rat) from not_le.mpr h,
                                  show ¬ (¬ c.den = 1 ∨ ¬ r.den = 1) from by
                                    push_neg; exact hA, h]
                            · push_neg at hB
                              simp [haid, hdle, hty1, hA.1, hA.2,
                                show ¬ (¬ c.den = 1 ∨ ¬ r.den = 1) from by
                                  push_neg; exact hA,
                                show ¬ (c < 1 ∨ 500 < c ∨ r < 1 ∨ 500 < r) from by
                                  push_neg; exact hB,
                                hB.1, hB.2.1, hB.2.2.1, hB.2.2.2]
                        | jnull => simp [haid, hdle, hty1]
                        | jbool b => simp [haid, hdle, hty1]
                        | jstr s => simp [haid, hdle, hty1]
                        | jarr elems => simp [haid, hdle, hty1]
                        | jobj fields => simp [haid, hdle, hty1]
                      | jnull => simp [haid, hdle, hty1]
                      | jbool b => simp [haid, hdle, hty1]
                      | jstr s => simp [haid, hdle, hty1]
                      | jarr elems => simp [haid, hdle, hty1]
                      | jobj fields => simp [haid, hdle, hty1]
                · by_cases hty3 : ty = "kill"
                  · simp [haid, hdle, hty1, hty2, hty3]
                  · by_cases hty4 : ty = "subscribe"
                    · simp [haid, hdle, hty1, hty2, hty3, hty4]
                    · by_cases hty5 : ty = "unsubscribe"
                      · simp [haid, hdle, hty1, hty2, hty3, hty4, hty5]
                      · simp [haid, hdle, hty1, hty2, hty3, hty4, hty5]
          | jnull => rfl
          | jbool b => rfl
          | jnum q => rfl
          | jarr elems => rfl
          | jobj fields => rfl
      | jnull => rfl
      | jbool b => rfl
      | jnum q => rfl
      | jarr elems => rfl
      | jobj fields => rfl

/- ============ C4: subscribe scrollback framing ============ -/

/-- Any frame a step other than `subscribe agentId` sends about `agentId`
is an output frame. -/
theorem step_frames_output (st : TraceState) (e : WsEvent) (agentId : String)
    (hne : e ≠ WsEvent.subscribe agentId) :
    ∀ f ∈ framesForAgent agentId (stepWs st e).2, f.isOutputFor agentId = true := by
  intro f hf
  cases e with
  | subscribe aid =>
    have haid : aid ≠ agentId := fun hc => hne (by rw [hc])
    have hfr : (stepWs st (WsEvent.subscribe aid)).2 = [] ∨
        ∃ sb, (stepWs st (WsEvent.subscribe aid)).2
          = [Frame.scrollback aid sb (getAgentCols st.sessions aid)] := by
      simp only [stepWs]
      by_cases h1 : st.subs.contains aid
      · left
        rw [if_pos h1]
      · rw [if_neg h1]
        rcases h2 : getAgentScrollback st.sessions aid with _ | sb
        · left
          rfl
        · by_cases h3 : sb = ""
          · left
            simp [h3]
          · right
            exact ⟨sb, by simp [h3]⟩
    rcases hfr with hfr | ⟨sb, hfr⟩
    · rw [hfr] at hf
      simp [framesForAgent] at hf
    · rw [hfr] at hf
      simp [framesForAgent, haid] at hf
  | unsubscribe aid =>
    simp [stepWs, framesForAgent] at hf
  | flush aid chunk =>
    rcases h2 : mapGet st.sessions aid with _ | s
    · have hfr : (stepWs st (WsEvent.flush aid chunk)).2 = [] := by
        simp [stepWs, h2]
      rw [hfr] at hf
      simp [framesForAgent] at hf
    · by_cases h3 : chunk = []
      · have hfr : (stepWs st (WsEvent.flush aid chunk)).2 = [] := by
          simp [stepWs, h2, h3]
        rw [hfr] at hf
        simp [framesForAgent] at hf
      · by_cases h4 : st.subs.contains aid
        · have h4m : aid ∈ st.subs := by simpa using h4
          have hfr : (stepWs st (WsEvent.flush aid chunk)).2
              = [Frame.output aid (base64Encode chunk)] := by
            simp [stepWs, h2, h3, h4m]
          rw [hfr] at hf
          by_cases h5 : aid = agentId
          · subst h5
            simp [framesForAgent] at hf
            rw [hf]
            simp [Frame.isOutputFor]
          · simp [framesForAgent, h5] at hf
        · have h4m : aid ∉ st.subs := by simpa using h4
          have hfr : (stepWs st (WsEvent.flush aid chunk)).2 = [] := by
            simp [stepWs, h2, h3, h4m]
          rw [hfr] at hf
          simp [framesForAgent] at hf

/-- Along any run without a `subscribe agentId` event, every frame sent
about `agentId` is an output frame. -/
theorem runWs_outputs_only (agentId : String) (events : List WsEvent) :
    ∀ st : TraceState, (∀ e ∈ events, e ≠ WsEvent.subscribe agentId) →
      ∀ f ∈ framesForAgent agentId (runWs st events),
        f.isOutputFor agentId = true := by
  induction events with
  | nil =>
    intro st h f hf
    simp [runWs, framesForAgent] at hf
  | cons e es ih =>
    intro st h f hf
    have hstep : runWs st (e :: es) = (stepWs st e).2 ++ runWs (stepWs st e).1 es := rfl
    rw [hstep] at hf
    unfold framesForAgent at hf
    rw [List.filter_append] at hf
    rcases List.mem_append.mp hf with h1 | h2
    · exact step_frames_output st e agentId (h e (List.mem_cons_self _ _)) f h1
    · exact ih (stepWs st e).1 (fun x hx => h x (List.mem_cons_of_mem _ hx)) f h2

/-- C4 counterexample: agent `A` is in the pool with an empty scrollback;
a fresh subscribe sends no frame at all — the claim's single scrollback
frame with an empty data field is never sent (the code skips the frame when
the base64 snapshot is falsy). -/
theorem subscribe_scrollback_counterexample :
    (mapGet c4EmptyPool "A").isSome = true ∧
    runWs ⟨c4EmptyPool, []⟩ [WsEvent.subscribe "A"] = [] :=
  ⟨rfl, rfl⟩

/-- C4 amended: for a client subscribing to a pooled agent it is not
already subscribed to, the subscribe step sends exactly one `scrollback`
frame iff the base64 snapshot is nonempty (none when the scrollback is
empty), carrying the snapshot and the agent's current cols; and every
later frame for that agent in a continuation without further subscribes
for it is an `output` frame — the scrollback frame, when sent, precedes
every output frame for the agent. -/
theorem subscribe_scrollback_order (sessions : List (String × PtySession))
    (subs : List String) (events : List WsEvent) (agentId : String)
    (sess : PtySession)
    (hpool : mapGet sessions agentId = some sess)
    (hsub : subs.contains agentId = false)
    (hev : ∀ e ∈ events, e ≠ WsEvent.subscribe agentId) :
    runWs ⟨sessions, subs⟩ (WsEvent.subscribe agentId :: events)
      = (if base64Encode sess.scrollback.read = "" then []
         else [Frame.scrollback agentId (base64Encode sess.scrollback.read)
                 sess.cols])
        ++ runWs ⟨sessions, subs ++ [agentId]⟩ events ∧
    ∀ f ∈ framesForAgent agentId (runWs ⟨sessions, subs ++ [agentId]⟩ events),
      f.isOutputFor agentId = true := by
  constructor
  · have hscroll : getAgentScrollback sessions agentId
        = some (base64Encode sess.scrollback.read) := by
      unfold getAgentScrollback
      rw [hpool]
      rfl
    have hcols : getAgentCols sessions agentId = sess.cols := by
      unfold getAgentCols
      rw [hpool]
    have hstep : runWs ⟨sessions, subs⟩ (WsEvent.subscribe agentId :: events)
        = (stepWs ⟨sessions, subs⟩ (WsEvent.subscribe agentId)).2
          ++ runWs (stepWs ⟨sessions, subs⟩ (WsEvent.subscribe agentId)).1 events := rfl
    rw [hstep]
    simp only [stepWs, hsub, hscroll, hcols]
    simp
  · exact runWs_outputs_only agentId events ⟨sessions, subs ++ [agentId]⟩ hev

/-- Witness for C4 at a pool whose agent `A` has bytes `[104, 105]` in its
scrollback, with a subsequent flush: the subscribe step emits the
scrollback frame first and the continuation only output frames. -/
theorem subscribe_scrollback_order_witness :
    runWs ⟨c4Pool, []⟩ [WsEvent.subscribe "A", WsEvent.flush "A" [33]]
      = (if base64Encode (demoSession "A" "T" 120
            ((RingBuffer.new 4).write [104, 105])).scrollback.read = "" then []
         else [Frame.scrollback "A"
            (base64Encode (demoSession "A" "T" 120
              ((RingBuffer.new 4).write [104, 105])).scrollback.read)
            (demoSession "A" "T" 120 ((RingBuffer.new 4).write [104, 105])).cols])
        ++ runWs ⟨c4Pool, [] ++ ["A"]⟩ [WsEvent.flush "A" [33]] ∧
    ∀ f ∈ framesForAgent "A" (runWs ⟨c4Pool, [] ++ ["A"]⟩ [WsEvent.flush "A" [33]]),
      f.isOutputFor "A" = true :=
  subscribe_scrollback_order c4Pool [] [WsEvent.flush "A" [33]] "A"
    (demoSession "A" "T" 120 ((RingBuffer.new 4).write [104, 105]))
    rfl rfl (by decide)
